import Mathlib

/-!
# Verification of the brine MIR data model, CFG builder and Miri interpreter

Shallow embedding of `src/brine/src/mir.rs`, `src/brine/src/cfg.rs` and
`src/brine/src/miri.rs`.

Modelling conventions:
* Rust `i64` is modelled as unbounded `Int`; `usize` as `Nat`. No claim under
  scrutiny depends on wrap-around overflow; division/remainder by zero, which
  aborts unconditionally in Rust, is modelled explicitly as a panic outcome.
* Interned strings (`MirInternedStr`) are modelled as `String`; interning is
  observationally string equality.
* `format!`-built error strings are modelled as structured error values
  carrying exactly the data interpolated into the Rust message; Rust panics
  (`panic!`, `unimplemented!`, `debug_assert!`, arithmetic aborts, index
  out of bounds) are modelled as a separate `PanicMsg` outcome, distinct
  from `Result::Err`.
* The interpreter's driver loop is modelled with explicit fuel; `none` means
  the fuel ran out. `Evaluates e r` states that the loop terminates with
  outcome `r` for some fuel.
-/

namespace Brine

/-- Primitive operation tags, from `mir.rs` (`enum Primitive`). -/
inductive Primitive where
  | Plus | Minus | Times | Div | Mod | Neg | And | Or | Xor
  | Cons | Car | Cdr | Eq | Lt | Le | Gt | Ge | BoolToInt
  | Get (n : Nat) | Set (n : Nat) | Pure | Lift | Then | Y
  deriving DecidableEq, Repr

/-- MIR literals, from `mir.rs` (`enum MirLiteral`). -/
inductive MirLiteral where
  | Bool (b : Bool)
  | Int (i : Int)
  | Null
  deriving DecidableEq, Repr

/-- MIR expressions, from `mir.rs` (`enum MirExpr`). The `Box` indirections
and the `Let`/`Lambda`/`If`/`Apply` payload structs are flattened into
constructor fields. -/
inductive MirExpr where
  | Let (ident : String) (value : MirExpr) (body : MirExpr)
  | Lambda (arg : String) (body : MirExpr)
  | If (condition : MirExpr) (consequent : MirExpr) (alternative : MirExpr)
  | Apply (func : MirExpr) (arg : MirExpr)
  | Primitive (p : Primitive)
  | Literal (l : MirLiteral)
  | Ref (name : String)
  | Comment (text : String) (inner : MirExpr)
  deriving DecidableEq, Repr

namespace MirExpr

/-- `MirExpr::apply` constructor helper from `mir.rs`. -/
def apply (func arg : MirExpr) : MirExpr := .Apply func arg

/-- `MirExpr::literal` constructor helper from `mir.rs`. -/
def literal (ml : MirLiteral) : MirExpr := .Literal ml

/-- `MirExpr::if_` constructor helper from `mir.rs`. -/
def if_ (condition consequent alternative : MirExpr) : MirExpr :=
  .If condition consequent alternative

/-- `MirExpr::lambda` constructor helper from `mir.rs`. -/
def lambda (arg : String) (body : MirExpr) : MirExpr := .Lambda arg body

/-- `MirExpr::let_` constructor helper from `mir.rs`. -/
def let_ (ident : String) (value body : MirExpr) : MirExpr := .Let ident value body

/-- `MirExpr::nop` from `mir.rs`: `Apply(Primitive(Pure), Literal(Null))`. -/
def nop : MirExpr := apply (.Primitive .Pure) (literal .Null)

/-- `MirExpr::desugar` from `mir.rs`, lines 77-88: a root `Let` becomes
`Apply(Lambda(ident, body.desugar()), value.desugar())`; every other
variant is returned by `self.clone()`. -/
def desugar : MirExpr → MirExpr
  | .Let ident value body => apply (lambda ident body.desugar) value.desugar
  | e => e

/-- Tree predicate used by the spec's desugaring property: does the
expression contain a `Let` node anywhere? -/
def containsLet : MirExpr → Bool
  | .Let _ _ _ => true
  | .Lambda _ body => containsLet body
  | .If c t e => containsLet c || containsLet t || containsLet e
  | .Apply f a => containsLet f || containsLet a
  | .Primitive _ => false
  | .Literal _ => false
  | .Ref _ => false
  | .Comment _ inner => containsLet inner

end MirExpr

/-! ## Runtime objects and environments (`miri.rs`) -/

mutual

/-- A MIR runtime object, from `miri.rs` (`enum Obj`). `Rc` sharing is
modelled by plain values (an `Rc<Obj>` clone is value equality). -/
inductive Obj where
  | Bool (b : Bool)
  | Int (i : Int)
  | Null
  | Lambda (l : LambdaObj)
  | CurriedPrimitive (p : CurriedPrimitive)
  | Cons (car cdr : Obj)

/-- A closure, from `miri.rs` (`struct Lambda`): captured environment,
bound argument name, body expression. -/
inductive LambdaObj where
  | mk (env : Env) (arg : String) (body : MirExpr)

/-- A partially applied primitive, from `miri.rs` (`struct CurriedPrimitive`). -/
inductive CurriedPrimitive where
  | mk (primitive : Primitive) (args : List Obj)

/-- An environment frame, from `miri.rs` (`struct Environment` behind
`RcEnv`): optional parent frame plus a vector of bindings. -/
inductive Env where
  | mk (parent : Option Env) (bindings : List (String × Obj))

end

namespace LambdaObj
/-- Captured environment of a closure. -/
def env : LambdaObj → Env | .mk e _ _ => e
/-- Bound argument name of a closure. -/
def arg : LambdaObj → String | .mk _ a _ => a
/-- Body expression of a closure. -/
def body : LambdaObj → MirExpr | .mk _ _ b => b
end LambdaObj

namespace CurriedPrimitive
/-- The primitive tag of a partial application. -/
def primitive : CurriedPrimitive → Primitive | .mk p _ => p
/-- The argument values accumulated so far. -/
def args : CurriedPrimitive → List Obj | .mk _ a => a
end CurriedPrimitive

namespace Env

/-- `RcEnv::find_value` from `miri.rs`: search this frame's bindings, then
the parent chain; `none` when absent everywhere. -/
def find_value : Env → String → Option Obj
  | .mk parent bindings, name =>
    match bindings.find? (fun b => b.1 == name) with
    | some b => some b.2
    | none =>
      match parent with
      | some p => p.find_value name
      | none => none

/-- `RcEnv::with_value` from `miri.rs`: a fresh frame with a single binding
whose parent is the old environment. -/
def with_value (e : Env) (name : String) (value : Obj) : Env :=
  .mk (some e) [(name, value)]

/-- `Environment::default()`: no parent, no bindings. -/
def default : Env := .mk none []

end Env

/-- An interpreter continuation, from `miri.rs` (`enum Continuation`). -/
inductive Continuation where
  | Eval (expr : MirExpr) (environment : Env)
  | If (consequent alternative : MirExpr) (environment : Env)
  | EvFun (arg : MirExpr) (environment : Env)
  | Apply (func : Obj) (environment : Env)

/-- A Rust panic site reachable from the embedded code. Carries the data
interpolated into the corresponding panic message. -/
inductive PanicMsg where
  /-- `unimplemented!("found {:?}, which should be gone after desugaring")`
  in `miri.rs::eval`. -/
  | undesugaredExpr (e : MirExpr)
  /-- `panic!("got primitive {:?}, which should have been desugared")`
  in `miri.rs::apply_primitive`. -/
  | undesugaredPrimitive (p : Primitive)
  /-- `panic!("expected int, got {:?}")` in `miri.rs::get_int`. -/
  | expectedInt (o : Obj)
  /-- `panic!("expected bool, got {:?}")` in `miri.rs::get_bool`. -/
  | expectedBool (o : Obj)
  /-- `panic!("expected pair, got {:?}")` in `miri.rs::get_pair`. -/
  | expectedPair (o : Obj)
  /-- Rust abort on `/` with zero divisor. -/
  | divideByZero
  /-- Rust abort on `%` with zero divisor. -/
  | remainderByZero
  /-- Slice or `Vec` index out of bounds. -/
  | indexOutOfBounds
  /-- `debug_assert!(old.is_none(), "changing block jump")` in `cfg.rs::set_jump`. -/
  | changingBlockJump
  /-- `debug_assert!(old.is_none(), "changing return block ID")` in
  `cfg.rs::set_return_block`. -/
  | changingReturnBlock
  /-- `.expect("switch given empty exprs")` in `cfg.rs::switch_helper`. -/
  | switchEmptyExprs

/-- Runtime type classes for primitive arguments, from `miri.rs`
(`enum ObjType`). -/
inductive ObjType where
  | Bool | Int | Null | Lambda | CurriedPrimitive | Cons | Any
  deriving DecidableEq, Repr

/-- An evaluation error, from the `format!` strings returned as
`Result::Err` in `miri.rs`. Each constructor carries the interpolated data. -/
inductive EvalErr where
  /-- `"expected a bool value, got {:?}"` (an `If` continuation fired on a
  non-boolean current value). -/
  | expectedABool (got : Obj)
  /-- `"reference to undefined name {}"`. -/
  | undefinedName (name : String)
  /-- `"cannot apply {:?}"`. -/
  | cannotApply (func : Obj)
  /-- `"primitive {:?}: expected type {:?}, but got {:?}"`. -/
  | primTypeError (primitive : Primitive) (expected : ObjType) (got : Obj)

/-- `ObjType::check_type` from `miri.rs`. (Declared outside the `ObjType`
namespace so that the result type `Bool` does not collide with the
`ObjType.Bool` constructor.) -/
def check_type : ObjType → Obj → Bool
  | .Any, _ => true
  | .Bool, .Bool _ => true
  | .Int, .Int _ => true
  | .Null, .Null => true
  | .Lambda, .Lambda _ => true
  | .CurriedPrimitive, .CurriedPrimitive _ => true
  | .Cons, .Cons _ _ => true
  | _, _ => false

/-- Outcome of a fallible interpreter step: an ordinary `Err` value or a
process abort. -/
inductive Failure where
  | err (e : EvalErr)
  | panic (p : PanicMsg)

/-- Final outcome of `miri.rs::run`: `Ok` value, `Err` value, or abort. -/
inductive Res where
  | ok (v : Obj)
  | err (e : EvalErr)
  | panic (p : PanicMsg)

/-- The per-position expected argument types of each primitive, from the
first `match` in `miri.rs::apply_primitive`; `none` for the higher-level
primitives, whose arm is `panic!`. -/
def expected_args : Primitive → Option (List ObjType)
  | .Plus => some [.Int, .Int]
  | .Minus => some [.Int, .Int]
  | .Times => some [.Int, .Int]
  | .Div => some [.Int, .Int]
  | .Mod => some [.Int, .Int]
  | .Neg => some [.Bool]
  | .And => some [.Bool, .Bool]
  | .Or => some [.Bool, .Bool]
  | .Xor => some [.Bool, .Bool]
  | .Cons => some [.Any, .Any]
  | .Car => some [.Cons]
  | .Cdr => some [.Cons]
  | .Eq => some [.Int, .Int]
  | .Gt => some [.Int, .Int]
  | .Ge => some [.Int, .Int]
  | .Lt => some [.Int, .Int]
  | .Le => some [.Int, .Int]
  | .BoolToInt => some [.Bool]
  | _ => none

/-- `miri.rs::get_int`: the integer payload, or a panic. -/
def get_int : Obj → Except Failure Int
  | .Int i => .ok i
  | o => .error (.panic (.expectedInt o))

/-- `miri.rs::get_bool`: the boolean payload, or a panic. -/
def get_bool : Obj → Except Failure Bool
  | .Bool b => .ok b
  | o => .error (.panic (.expectedBool o))

/-- `miri.rs::get_pair`: the two components of a cons cell, or a panic. -/
def get_pair : Obj → Except Failure (Obj × Obj)
  | .Cons car cdr => .ok (car, cdr)
  | o => .error (.panic (.expectedPair o))

/-- The firing `match` of `miri.rs::apply_primitive` (the `let val = match
prim.primitive { ... }` block), reached once the argument count equals the
arity. Rust's `args[0]`/`args[1]` indexing is rendered as list patterns;
an out-of-range index is the corresponding Rust panic. `i64` division and
remainder truncate toward zero (`Int.tdiv`/`Int.tmod`) and abort on a zero
divisor. Note `Xor` computes `==` on the two booleans, exactly as the
source does. -/
def fire (p : Primitive) (args : List Obj) : Except Failure Obj :=
  match p, args with
  | .Plus, a :: b :: _ => do
    let x ← get_int a; let y ← get_int b; .ok (.Int (x + y))
  | .Minus, a :: b :: _ => do
    let x ← get_int a; let y ← get_int b; .ok (.Int (x - y))
  | .Times, a :: b :: _ => do
    let x ← get_int a; let y ← get_int b; .ok (.Int (x * y))
  | .Div, a :: b :: _ => do
    let x ← get_int a; let y ← get_int b
    if y = 0 then .error (.panic .divideByZero) else .ok (.Int (Int.tdiv x y))
  | .Mod, a :: b :: _ => do
    let x ← get_int a; let y ← get_int b
    if y = 0 then .error (.panic .remainderByZero) else .ok (.Int (Int.tmod x y))
  | .Neg, a :: _ => do
    let x ← get_bool a; .ok (.Bool (!x))
  | .And, a :: b :: _ => do
    let x ← get_bool a; let y ← get_bool b; .ok (.Bool (x && y))
  | .Or, a :: b :: _ => do
    let x ← get_bool a; let y ← get_bool b; .ok (.Bool (x || y))
  | .Xor, a :: b :: _ => do
    let x ← get_bool a; let y ← get_bool b; .ok (.Bool (x == y))
  | .Cons, a :: b :: _ => .ok (.Cons a b)
  | .Car, a :: _ => do
    let p ← get_pair a; .ok p.1
  | .Cdr, a :: _ => do
    let p ← get_pair a; .ok p.2
  | .Eq, a :: b :: _ => do
    let x ← get_int a; let y ← get_int b; .ok (.Bool (x == y))
  | .Lt, a :: b :: _ => do
    let x ← get_int a; let y ← get_int b; .ok (.Bool (x < y))
  | .Le, a :: b :: _ => do
    let x ← get_int a; let y ← get_int b; .ok (.Bool (x ≤ y))
  | .Gt, a :: b :: _ => do
    let x ← get_int a; let y ← get_int b; .ok (.Bool (y < x))
  | .Ge, a :: b :: _ => do
    let x ← get_int a; let y ← get_int b; .ok (.Bool (y ≤ x))
  | .BoolToInt, a :: _ => do
    let x ← get_bool a; .ok (.Int (if x then 1 else 0))
  | .Get n, _ => .error (.panic (.undesugaredPrimitive (.Get n)))
  | .Set n, _ => .error (.panic (.undesugaredPrimitive (.Set n)))
  | .Pure, _ => .error (.panic (.undesugaredPrimitive .Pure))
  | .Lift, _ => .error (.panic (.undesugaredPrimitive .Lift))
  | .Then, _ => .error (.panic (.undesugaredPrimitive .Then))
  | .Y, _ => .error (.panic (.undesugaredPrimitive .Y))
  | _, _ => .error (.panic .indexOutOfBounds)

/-- `miri.rs::apply_primitive`: look up the expected argument types
(panicking on an undesugared higher-level primitive), type-check the new
argument at its position, and either extend the partial application or
fire. -/
def apply_primitive (prim : CurriedPrimitive) (arg : Obj) : Except Failure Obj :=
  match expected_args prim.primitive with
  | none => .error (.panic (.undesugaredPrimitive prim.primitive))
  | some expected =>
    let arg_pos := prim.args.length
    match expected.get? arg_pos with
    | none => .error (.panic .indexOutOfBounds)
    | some expected_type =>
      if check_type expected_type arg then
        let args := prim.args ++ [arg]
        if args.length < expected.length then
          .ok (.CurriedPrimitive (.mk prim.primitive args))
        else
          fire prim.primitive args
      else
        .error (.err (.primTypeError prim.primitive expected_type arg))

/-- `miri.rs::eval`: dispatch on one expression, returning the new stack
and current value. The stack's head is its top (Rust pushes to the end of a
`Vec`, so what is pushed last is listed first here). `Let` and `Comment`
fall into the catch-all `unimplemented!` arm. -/
def eval (expr : MirExpr) (environment : Env) (stack : List Continuation)
    (value : Obj) : Except Failure (List Continuation × Obj) :=
  match expr with
  | .Lambda arg body => .ok (stack, .Lambda (.mk environment arg body))
  | .If condition consequent alternative =>
    .ok (.Eval condition environment :: .If consequent alternative environment :: stack, value)
  | .Apply func arg =>
    .ok (.Eval func environment :: .EvFun arg environment :: stack, value)
  | .Primitive sp => .ok (stack, .CurriedPrimitive (.mk sp []))
  | .Literal l =>
    .ok (stack, match l with
      | .Bool b => .Bool b
      | .Int i => .Int i
      | .Null => .Null)
  | .Ref name =>
    match environment.find_value name with
    | some v => .ok (stack, v)
    | none => .error (.err (.undefinedName name))
  | e => .error (.panic (.undesugaredExpr e))

/-- The driver loop of `miri.rs::run`, with explicit fuel (`none` = fuel
exhausted). Each iteration pops the top continuation and dispatches exactly
as the Rust `while let Some(cont) = stack.pop()` loop does. In the
`Apply` case with a closure, the new frame extends `environment` — the
environment stored in the continuation — and the closure's captured
environment field is unused, exactly as in the source. -/
def runLoop : Nat → List Continuation → Obj → Option Res
  | 0, _, _ => none
  | _ + 1, [], value => some (.ok value)
  | n + 1, cont :: stack, value =>
    match cont with
    | .Eval expr environment =>
      match eval expr environment stack value with
      | .ok (stack', value') => runLoop n stack' value'
      | .error (.err e) => some (.err e)
      | .error (.panic p) => some (.panic p)
    | .If consequent alternative environment =>
      match value with
      | .Bool t =>
        runLoop n (.Eval (if t then consequent else alternative) environment :: stack) value
      | _ => some (.err (.expectedABool value))
    | .EvFun arg environment =>
      runLoop n (.Eval arg environment :: .Apply value environment :: stack) value
    | .Apply func environment =>
      match func with
      | .Lambda (.mk _capturedEnv arg body) =>
        runLoop n (.Eval body (environment.with_value arg value) :: stack) value
      | .CurriedPrimitive p =>
        match apply_primitive p value with
        | .ok v => runLoop n stack v
        | .error (.err e) => some (.err e)
        | .error (.panic pm) => some (.panic pm)
      | _ => some (.err (.cannotApply func))

/-- `miri.rs::run`: evaluate one expression from an empty top-level
environment, with the given fuel. -/
def run (fuel : Nat) (expr : MirExpr) : Option Res :=
  runLoop fuel [.Eval expr Env.default] .Null

/-- The interpreter, run with sufficient fuel, terminates on `e` with
outcome `r`. -/
def Evaluates (e : MirExpr) (r : Res) : Prop :=
  ∃ fuel, run fuel e = some r

/-! ## Control-flow graph builder (`cfg.rs`) -/

/-- `mir.rs`'s `struct Lambda` (argument name and body), the payload type
of a basic block's pending instruction. -/
structure Lambda where
  arg : String
  body : MirExpr
  deriving DecidableEq, Repr

/-- A jump descriptor, from `cfg.rs` (`enum Jump`). -/
inductive Jump where
  /-- Unconditionally jump to the pointed block. -/
  | Jmp (target : Nat)
  /-- If the current value is true, jump to the first block; otherwise, to
  the second. -/
  | Br (thenTarget elseTarget : Nat)
  deriving DecidableEq, Repr

/-- A basic block, from `cfg.rs` (`struct BasicBlock`). -/
structure BasicBlock where
  instr : Option Lambda := none
  jump : Option Jump := none
  deriving DecidableEq, Repr

/-- The CFG builder state, from `cfg.rs` (`struct Cfg`). -/
structure Cfg where
  blocks : List BasicBlock
  return_block_id : Option Nat
  current_block : Nat
  deriving DecidableEq, Repr

namespace Cfg

/-- `Cfg::default()`: one empty block, no return block, cursor at block 0. -/
def default : Cfg := ⟨[{}], none, 0⟩

/-- `Cfg::add_block`: append a fresh empty block; its id is the new
length minus one, i.e. the old length. -/
def add_block (cfg : Cfg) : Cfg × Nat :=
  ({ cfg with blocks := cfg.blocks ++ [{}] }, cfg.blocks.length)

/-- `Cfg::switch_to_block`: move the cursor. -/
def switch_to_block (cfg : Cfg) (id : Nat) : Cfg :=
  { cfg with current_block := id }

/-- `Cfg::add_instr`: store the instruction in the current block.
`debug_assert!(old.is_none())` is modelled as a panic when an instruction
was already present (the Rust `replace`-then-assert order is behaviorally
identical, since the panic aborts before the new state is observable);
indexing a nonexistent current block is the Rust indexing panic. -/
def add_instr (cfg : Cfg) (instr : Lambda) : Except Failure Cfg :=
  match cfg.blocks[cfg.current_block]? with
  | none => .error (.panic .indexOutOfBounds)
  | some b =>
    if b.instr.isSome then .error (.panic .indexOutOfBounds)
    else .ok { cfg with blocks := cfg.blocks.set cfg.current_block { b with instr := some instr } }

/-- `Cfg::set_jump`: store the jump descriptor in the current block;
`debug_assert!(old.is_none(), "changing block jump")` is modelled as a
panic when a jump was already present. -/
def set_jump (cfg : Cfg) (jump : Jump) : Except Failure Cfg :=
  match cfg.blocks[cfg.current_block]? with
  | none => .error (.panic .indexOutOfBounds)
  | some b =>
    if b.jump.isSome then .error (.panic .changingBlockJump)
    else .ok { cfg with blocks := cfg.blocks.set cfg.current_block { b with jump := some jump } }

/-- `Cfg::set_return_block`: designate the return block;
`debug_assert!(old.is_none(), "changing return block ID")` is modelled as
a panic when one was already designated. -/
def set_return_block (cfg : Cfg) (id : Nat) : Except Failure Cfg :=
  if cfg.return_block_id.isSome then .error (.panic .changingReturnBlock)
  else .ok { cfg with return_block_id := some id }

end Cfg

/-- The interned name `DISCRIMINANT` from the `lazy_static!` block in
`cfg.rs`. -/
def DISCRIMINANT : String := "discriminant"

/-- `cfg.rs::eq_expr`: the curried application `((eq n) e)`. -/
def eq_expr (n : Int) (e : MirExpr) : MirExpr :=
  MirExpr.apply (MirExpr.apply (.Primitive .Eq) (MirExpr.literal (.Int n))) e

/-- `cfg.rs::switch_helper`: pops the *last* expression of the vector,
guards it with `discriminant == current_pos`, and recurses on the rest
with `current_pos + 1`; when the rest is empty the popped expression is
returned unguarded. `none` models the `expect` panic on an empty vector. -/
def switch_helper (current_pos : Int) (exprs : List MirExpr) : Option MirExpr :=
  match exprs with
  | [] => none
  | e0 :: rest0 =>
    let expr := (e0 :: rest0).getLast (by simp)
    let rest := (e0 :: rest0).dropLast
    if rest.isEmpty then some expr
    else
      match switch_helper (current_pos + 1) rest with
      | none => none
      | some inner =>
        some (MirExpr.if_ (eq_expr current_pos (.Ref DISCRIMINANT)) expr inner)
termination_by exprs.length
decreasing_by
  simp only [List.length_dropLast, List.length_cons]
  omega

/-- `cfg.rs::switch`: bind the discriminant to the fixed name
`discriminant` and dispatch via `switch_helper` starting at position 0. -/
def switch (discriminant : MirExpr) (exprs : List MirExpr) : Option MirExpr :=
  match switch_helper 0 exprs with
  | none => none
  | some body => some (MirExpr.let_ DISCRIMINANT discriminant body)

/-! ## Textual s-expression encoding (`mir.rs`, via the `lexpr` crate)

`lexpr::Value` is modelled by `LValue` below. Numbers are modelled as the
`i64`-representable integers only (the encoder produces nothing else, so
`Number::as_i64` always succeeds in the model). -/

/-- The `lexpr::Value` data model. -/
inductive LValue where
  | Null
  | Bool (b : Bool)
  | Number (n : Int)
  | Symbol (s : String)
  | Keyword (s : String)
  | Str (s : String)
  | Cons (car cdr : LValue)
  | NilV
  | Vector (elems : List LValue)
  | Bytes
  | Char (c : Char)

namespace LValue

/-- `lexpr::Value::list`: a proper list ending in `Null`. -/
def list : List LValue → LValue
  | [] => .Null
  | x :: xs => .Cons x (list xs)

end LValue

/-- Is a cons-cell tail a proper list (chain of conses ending in `Null`)?
Mirrors the `rest.is_null()` check after `lexpr::Cons::into_vec`. -/
def properTail : LValue → Bool
  | .Cons _ d => properTail d
  | .Null => true
  | _ => false

/-- The terminal non-cons tail of a chain, i.e. the `rest` returned by
`lexpr::Cons::into_vec`. -/
def restOf : LValue → LValue
  | .Cons _ d => restOf d
  | v => v

/-- A decode failure, from the `format!` strings of `mir.rs::lexpr_to_mir`
and its helpers. Each constructor carries the interpolated data. -/
inductive DecodeErr where
  /-- `"number not supported: {}"` (unreachable in the model, where all
  numbers are `i64`-representable). -/
  | numberNotSupported
  /-- `"keyword at toplevel: {:?}"`. -/
  | keywordAtToplevel (k : String)
  /-- `"found unsupported object {:?}"` (vectors, bytes, chars, nil,
  top-level strings). -/
  | unsupportedObject (v : LValue)
  /-- `"improper list: ends with {:?}"`. -/
  | improperList (rest : LValue)
  /-- `"let must have exactly two arguments, found {:?}"`. -/
  | letArity (args : LValue)
  /-- `"let first argument must be a pair, not {:?}"`. -/
  | letBindNotPair (e : LValue)
  /-- `"let binding must have exactly two elements, found {:?}"`. -/
  | letBindArity (bind : LValue)
  /-- `"lambda first argument must be a symbol, not {:?}"` (used for both
  `let` binding names and `lambda` parameters). -/
  | identNotSymbol (e : LValue)
  /-- `"lambda must have exactly two arguments, found {:?}"`. -/
  | lambdaArity (args : LValue)
  /-- `"if must have exactly three arguments, found {:?}"`. -/
  | ifArity (args : LValue)
  /-- `"comment must have exactly one argument, found {:?}"`. -/
  | commentArity (args : LValue)
  /-- `"comment first argument must be a string, not {:?}"`. -/
  | commentNotString (e : LValue)
  /-- `"unknown keyword: {}"`. -/
  | unknownKeyword (kw : String)

/-- The decimal digit character for `d < 10` (ASCII `'0' + d`), as Rust's
integer `Display` emits. -/
def digitChar (d : Nat) : Char := Char.ofNat (48 + d)

/-- The numeric value of a decimal digit character, `none` for any other
character. -/
def charVal (c : Char) : Option Nat :=
  if 48 ≤ c.toNat && c.toNat ≤ 57 then some (c.toNat - 48) else none

/-- Decimal digit characters of `n`, most significant first (empty for 0);
the standard division-remainder printer, matching Rust's `Display` for
`usize`. -/
def natReprAux : Nat → List Char
  | 0 => []
  | n + 1 => natReprAux ((n + 1) / 10) ++ [digitChar ((n + 1) % 10)]
decreasing_by
  exact Nat.div_lt_self (Nat.succ_pos n) (by omega)

/-- The decimal rendering of a `Nat`, as Rust's `Display` for `usize`
prints it inside serde-lexpr's newtype-variant encoding. -/
def natRepr (n : Nat) : String := if n = 0 then "0" else String.mk (natReprAux n)

/-- Left fold accumulating the value of a run of decimal digit
characters; `none` as soon as a non-digit appears. -/
def digitsValGo (acc : Nat) : List Char → Option Nat
  | [] => some acc
  | c :: cs =>
    match charVal c with
    | some d => digitsValGo (acc * 10 + d) cs
    | none => none

/-- The value of a non-empty all-digit character run, `none` otherwise:
the model of lexpr's number-token parse followed by the `usize`
deserialization of a `Get`/`Set` payload (`usize` is modelled as
unbounded `Nat`, per the file's integer convention). -/
def digitsVal (l : List Char) : Option Nat :=
  match l with
  | [] => none
  | _ => digitsValGo 0 l

/-- The serde-lexpr serialization of a primitive tag, as produced by
`to_string` in `mir.rs::mir_to_lexpr`: the kebab-case variant name for
unit variants, and serde's dotted newtype-variant form `(get . N)` /
`(set . N)` (decimal payload) for `Get`/`Set`. -/
def primName : Primitive → String
  | .Plus => "plus"
  | .Minus => "minus"
  | .Times => "times"
  | .Div => "div"
  | .Mod => "mod"
  | .Neg => "neg"
  | .And => "and"
  | .Or => "or"
  | .Xor => "xor"
  | .Cons => "cons"
  | .Car => "car"
  | .Cdr => "cdr"
  | .Eq => "eq"
  | .Lt => "lt"
  | .Le => "le"
  | .Gt => "gt"
  | .Ge => "ge"
  | .BoolToInt => "bool-to-int"
  | .Get n => "(get . " ++ natRepr n ++ ")"
  | .Set n => "(set . " ++ natRepr n ++ ")"
  | .Pure => "pure"
  | .Lift => "lift"
  | .Then => "then"
  | .Y => "y"

/-- The unit-variant arm of the primitive decoder: a symbol token whose
text is exactly a kebab-case unit-variant name deserializes to that
variant; any other single-token symbol (or number) fails and falls back
to a free reference. -/
def prim_unit_name : String → Option Primitive
  | "plus" => some .Plus
  | "minus" => some .Minus
  | "times" => some .Times
  | "div" => some .Div
  | "mod" => some .Mod
  | "neg" => some .Neg
  | "and" => some .And
  | "or" => some .Or
  | "xor" => some .Xor
  | "cons" => some .Cons
  | "car" => some .Car
  | "cdr" => some .Cdr
  | "eq" => some .Eq
  | "lt" => some .Lt
  | "le" => some .Le
  | "gt" => some .Gt
  | "ge" => some .Ge
  | "bool-to-int" => some .BoolToInt
  | "pure" => some .Pure
  | "lift" => some .Lift
  | "then" => some .Then
  | "y" => some .Y
  | _ => none

/-- The parenthesized arm of the primitive decoder: serde-lexpr's
canonical newtype-variant text `(get . N)` / `(set . N)` (`N` a run of
decimal digits) parses to the dotted pair and deserializes to
`Get N` / `Set N`; any other content fails. -/
def prim_paren_form : List Char → Option Primitive
  | 'g' :: 'e' :: 't' :: ' ' :: '.' :: ' ' :: rest =>
    (match rest.getLast? with
     | some ')' => (digitsVal rest.dropLast).map Primitive.Get
     | _ => none)
  | 's' :: 'e' :: 't' :: ' ' :: '.' :: ' ' :: rest =>
    (match rest.getLast? with
     | some ')' => (digitsVal rest.dropLast).map Primitive.Set
     | _ => none)
  | _ => none

/-- `from_str::<Primitive>` on a symbol's text, as used in
`mir.rs::lexpr_to_mir`. The Rust `from_str` re-parses the text as an
s-expression and deserializes the result. The model covers the two
classes every theorem quantifies over: (i) plain identifier tokens
(alphanumeric, `-`, `_`), which the lexpr tokenizer returns verbatim, so
deserialization succeeds exactly on the unit-variant names; and (ii) the
canonical serde encodings of `Get`/`Set` produced by `primName`. Strings
outside both classes (e.g. whitespace-padded names or non-canonical
spacing inside parentheses, which the real parser would normalize) are
not modelled faithfully and are kept out of every theorem's scope by the
`SafeIdent` restriction below. -/
def prim_from_str (s : String) : Option Primitive :=
  match s.data with
  | '(' :: rest => prim_paren_form rest
  | _ => prim_unit_name s

/-- A plain identifier: non-empty and built only from alphanumeric
characters, `-` and `_`. On such strings the lexpr tokenizer yields a
single token equal to the string itself, so the exact-name primitive
check of `prim_from_str` coincides with the program's parse-based
`from_str`. -/
def SafeIdent (s : String) : Bool :=
  !s.isEmpty && s.data.all (fun c => c.isAlphanum || c == '-' || c == '_')

/-- `mir.rs::mir_to_lexpr`: the textual encoding of a MIR expression.
Note the `Comment` arm emits `(text body)` with *no* `comment` keyword,
exactly as the source does. -/
def mir_to_lexpr : MirExpr → LValue
  | .Let ident value body =>
    .list [.Keyword "let", .list [.Symbol ident, mir_to_lexpr value], mir_to_lexpr body]
  | .Lambda arg body =>
    .list [.Keyword "lambda", .Symbol arg, mir_to_lexpr body]
  | .If condition consequent alternative =>
    .list [.Keyword "if", mir_to_lexpr condition, mir_to_lexpr consequent,
      mir_to_lexpr alternative]
  | .Apply func arg => .list [mir_to_lexpr func, mir_to_lexpr arg]
  | .Primitive p => .Symbol (primName p)
  | .Literal .Null => .Null
  | .Literal (.Int i) => .Number i
  | .Literal (.Bool b) => .Bool b
  | .Ref r => .Symbol r
  | .Comment comment body => .list [.Str comment, mir_to_lexpr body]

mutual

/-- `mir.rs::lexpr_to_mir`: decode a `lexpr` value to MIR. -/
def lexpr_to_mir : LValue → Except DecodeErr MirExpr
  | .Null => .ok (MirExpr.literal .Null)
  | .Bool b => .ok (MirExpr.literal (.Bool b))
  | .Number n => .ok (MirExpr.literal (.Int n))
  | .Symbol s =>
    match prim_from_str s with
    | some p => .ok (.Primitive p)
    | none => .ok (.Ref s)
  | .Keyword k => .error (.keywordAtToplevel k)
  | .Cons a d => cons_to_mir a d
  | v => .error (.unsupportedObject v)
termination_by v => 2 * sizeOf v

/-- `mir.rs::cons_to_mir`: check list properness (`into_vec_proper`),
then dispatch on the first element: a keyword starts a special form,
anything else starts a left-folded curried application. Rust's `?`
operator is rendered as `Except` bind. -/
def cons_to_mir (first : LValue) (rest : LValue) : Except DecodeErr MirExpr :=
  if properTail rest then
    match first with
    | .Keyword s => parse_kw s rest
    | f => do
      let first_val ← lexpr_to_mir f
      fold_apps first_val rest
  else .error (.improperList (restOf rest))
termination_by 2 * (sizeOf first + sizeOf rest) + 1

/-- The `fold_results` application fold of `mir.rs::cons_to_mir`: decode
each remaining element in order, stopping at the first error, and
left-associate `Apply` nodes. -/
def fold_apps (acc : MirExpr) : LValue → Except DecodeErr MirExpr
  | .Cons x d => do
    let v ← lexpr_to_mir x
    fold_apps (MirExpr.apply acc v) d
  | .Null => .ok acc
  | v => .error (.improperList v)
termination_by v => 2 * sizeOf v

/-- `mir.rs::parse_kw`: the keyword special forms. Arity is checked
against the raw argument spine first; elements are decoded in the order
the source pops them (last first). -/
def parse_kw (kw : String) (args : LValue) : Except DecodeErr MirExpr :=
  match kw with
  | "let" =>
    match args with
    | .Cons bind (.Cons bodyv .Null) => do
      let body ← lexpr_to_mir bodyv
      match bind with
      | .Cons bi bd =>
        if properTail bd then
          match bd with
          | .Cons valv .Null => do
            let val ← lexpr_to_mir valv
            match bi with
            | .Symbol s => .ok (MirExpr.let_ s val body)
            | e => .error (.identNotSymbol e)
          | _ => .error (.letBindArity bind)
        else .error (.improperList (restOf bd))
      | e => .error (.letBindNotPair e)
    | _ => .error (.letArity args)
  | "lambda" =>
    match args with
    | .Cons identv (.Cons bodyv .Null) => do
      let body ← lexpr_to_mir bodyv
      match identv with
      | .Symbol s => .ok (MirExpr.lambda s body)
      | e => .error (.identNotSymbol e)
    | _ => .error (.lambdaArity args)
  | "if" =>
    match args with
    | .Cons condv (.Cons consv (.Cons altv .Null)) => do
      let alternative ← lexpr_to_mir altv
      let consequent ← lexpr_to_mir consv
      let condition ← lexpr_to_mir condv
      .ok (MirExpr.if_ condition consequent alternative)
    | _ => .error (.ifArity args)
  | "comment" =>
    match args with
    | .Cons commentv (.Cons bodyv .Null) => do
      let body ← lexpr_to_mir bodyv
      match commentv with
      | .Str s => .ok (.Comment s body)
      | e => .error (.commentNotString e)
    | _ => .error (.commentArity args)
  | _ => .error (.unknownKeyword kw)
termination_by 2 * sizeOf args

end

/-! ## Helper lemmas and spec-side predicates -/

/-- Reduction of `Except` bind on a success value (Rust's `?` operator on
an `Ok`). -/
theorem ok_bind {e a b : Type} (x : a) (f : a → Except e b) :
    (Except.ok x : Except e a) >>= f = f x := rfl

/-- Reduction of `Except` bind on a failure value (Rust's `?` operator on
an `Err`). -/
theorem error_bind {e a b : Type} (x : e) (f : a → Except e b) :
    (Except.error x : Except e a) >>= f = .error x := rfl

/-- Spec-side scope predicate for the amended round-trip claim: the
expression contains no `Comment` node, and every `Ref` names a plain
identifier (see `SafeIdent`) that the primitive decoder does not accept —
otherwise decoding returns the primitive instead of the reference. All
primitives, `Get`/`Set` included, are in scope. -/
def Encodable : MirExpr → Bool
  | .Let _ value body => Encodable value && Encodable body
  | .Lambda _ body => Encodable body
  | .If c t e => Encodable c && Encodable t && Encodable e
  | .Apply f a => Encodable f && Encodable a
  | .Primitive _ => true
  | .Literal _ => true
  | .Ref name => SafeIdent name && (prim_from_str name).isNone
  | .Comment _ _ => false

/-- A decimal digit character evaluates back to its digit. -/
theorem charVal_digitChar (d : Nat) (h : d < 10) :
    charVal (digitChar d) = some d := by
  interval_cases d <;> decide

/-- The digit fold distributes over list append, failing as soon as
either part fails. -/
theorem digitsValGo_append (l₁ l₂ : List Char) (acc : Nat) :
    digitsValGo acc (l₁ ++ l₂) =
      match digitsValGo acc l₁ with
      | some a => digitsValGo a l₂
      | none => none := by
  induction l₁ generalizing acc with
  | nil => simp [digitsValGo]
  | cons c cs ih =>
    cases hv : charVal c with
    | some d => simp [digitsValGo, hv, ih]
    | none => simp [digitsValGo, hv]

/-- Folding the printer's digits of `n` onto an accumulator yields
`acc · 10^digits + n`. -/
theorem digitsValGo_natReprAux (n : Nat) :
    ∀ acc, digitsValGo acc (natReprAux n) =
      some (acc * 10 ^ (natReprAux n).length + n) := by
  induction n using Nat.strong_induction_on with
  | _ n ih =>
    intro acc
    match n with
    | 0 => simp [natReprAux, digitsValGo]
    | m + 1 =>
      have hdiv : (m + 1) / 10 < m + 1 := Nat.div_lt_self (Nat.succ_pos m) (by omega)
      have hmod : (m + 1) % 10 < 10 := Nat.mod_lt _ (by omega)
      rw [natReprAux, digitsValGo_append, ih _ hdiv acc]
      simp only [digitsValGo, charVal_digitChar _ hmod, List.length_append,
        List.length_cons, List.length_nil]
      have hdm : (m + 1) / 10 * 10 + (m + 1) % 10 = m + 1 :=
        Nat.div_add_mod' (m + 1) 10
      have : (acc * 10 ^ (natReprAux ((m + 1) / 10)).length + (m + 1) / 10) * 10
            + (m + 1) % 10
          = acc * 10 ^ ((natReprAux ((m + 1) / 10)).length + 1) + (m + 1) := by
        calc (acc * 10 ^ (natReprAux ((m + 1) / 10)).length + (m + 1) / 10) * 10
              + (m + 1) % 10
            = acc * (10 ^ (natReprAux ((m + 1) / 10)).length * 10)
              + ((m + 1) / 10 * 10 + (m + 1) % 10) := by ring
          _ = acc * 10 ^ ((natReprAux ((m + 1) / 10)).length + 1) + (m + 1) := by
              rw [hdm, pow_succ]
      rw [this]

/-- The strict digit parse inverts the decimal printer. -/
theorem digitsVal_natRepr (n : Nat) : digitsVal (natRepr n).data = some n := by
  match n with
  | 0 => decide
  | m + 1 =>
    have hne : natRepr (m + 1) = String.mk (natReprAux (m + 1)) := by
      simp [natRepr]
    rw [hne]
    cases hl : natReprAux (m + 1) with
    | nil =>
      rw [natReprAux] at hl
      cases List.append_ne_nil_of_right_ne_nil (natReprAux ((m + 1) / 10))
        (by simp : [digitChar ((m + 1) % 10)] ≠ []) hl
    | cons c cs =>
      have hgo : digitsVal (c :: cs) = digitsValGo 0 (c :: cs) := rfl
      show digitsVal (c :: cs) = some (m + 1)
      rw [hgo, ← hl, digitsValGo_natReprAux (m + 1) 0]
      simp

/-- The primitive decoder inverts the serde serialization on every
primitive tag, `Get`/`Set` included. -/
theorem prim_from_str_primName (p : Primitive) :
    prim_from_str (primName p) = some p := by
  cases p with
  | Get n =>
    have hd : (primName (.Get n)).data
        = '(' :: ('g' :: 'e' :: 't' :: ' ' :: '.' :: ' ' :: ((natRepr n).data ++ [')'])) := by
      simp [primName, String.data_append]
    rw [prim_from_str, hd]
    simp [prim_paren_form, List.getLast?_concat, List.dropLast_concat, digitsVal_natRepr]
  | Set n =>
    have hd : (primName (.Set n)).data
        = '(' :: ('s' :: 'e' :: 't' :: ' ' :: '.' :: ' ' :: ((natRepr n).data ++ [')'])) := by
      simp [primName, String.data_append]
    rw [prim_from_str, hd]
    simp [prim_paren_form, List.getLast?_concat, List.dropLast_concat, digitsVal_natRepr]
  | _ => rfl

/-- The encoder never produces a bare keyword value: keywords appear only
as the first element of special-form lists. -/
theorem mir_to_lexpr_ne_keyword (v : MirExpr) (s : String) :
    mir_to_lexpr v ≠ .Keyword s := by
  cases v with
  | Literal l => cases l <;> simp [mir_to_lexpr]
  | _ => simp [mir_to_lexpr, LValue.list]

/-- On a proper list whose head is not a keyword, `cons_to_mir` is the
decode-then-fold application path. -/
theorem cons_to_mir_app (first rest : LValue) (hk : ∀ s, first ≠ .Keyword s)
    (hp : properTail rest = true) :
    cons_to_mir first rest = (do
      let first_val ← lexpr_to_mir first
      fold_apps first_val rest) := by
  cases first
  case Keyword s => cases hk s rfl
  all_goals simp [cons_to_mir, hp]

/-! ## Claim theorems -/

/-- Claim C1. The claim states that applying a closure evaluates the body
in a frame extending the closure's *captured* environment, so that the
desugared form of `(let (x 5) (lambda y (plus x y)))` applied to `3`
yields `8`. The code instead extends the environment stored in the
`Apply` continuation (the call site's); the captured environment field is
never read, so `x` is unbound in the body and evaluation ends in the
error `reference to undefined name x` rather than `Ok(Int 8)`. -/
theorem apply_extends_callsite_env_not_captured :
    Evaluates
      (.Apply (.Apply (.Lambda "x" (.Lambda "y"
          (.Apply (.Apply (.Primitive .Plus) (.Ref "x")) (.Ref "y"))))
        (.Literal (.Int 5))) (.Literal (.Int 3)))
      (.err (.undefinedName "x")) :=
  ⟨20, rfl⟩

/-- Claim C2. The claim states `desugar` removes every `Let` at any depth
and reconstructs non-`Let` variants with recursively desugared children.
The code's `desugar` only rewrites a `Let` at the root (recursing into its
value and body) and returns every other variant entirely unchanged: a
`Let` under a `Lambda` survives desugaring verbatim. -/
theorem desugar_keeps_let_under_lambda :
    MirExpr.desugar (.Lambda "x" (.Let "y" (.Literal .Null) (.Ref "y")))
        = .Lambda "x" (.Let "y" (.Literal .Null) (.Ref "y"))
      ∧ MirExpr.containsLet
          (MirExpr.desugar (.Lambda "x" (.Let "y" (.Literal .Null) (.Ref "y")))) = true :=
  ⟨rfl, rfl⟩

/-- Claim C3, counterexample. The round-trip fails on `Comment` nodes:
`mir_to_lexpr` emits `(text body)` without the `comment` keyword, so
decoding hits the raw string in head position and rejects it as an
unsupported object instead of returning the original value. -/
theorem roundtrip_fails_on_comment :
    lexpr_to_mir (mir_to_lexpr (.Comment "c" (.Literal .Null)))
      ≠ .ok (.Comment "c" (.Literal .Null)) := by
  have he : lexpr_to_mir (mir_to_lexpr (.Comment "c" (.Literal .Null)))
      = .error (.unsupportedObject (.Str "c")) := by
    simp [mir_to_lexpr, LValue.list, lexpr_to_mir, cons_to_mir, properTail, error_bind]
  simp [he]

/-- Claim C3, amended. For every MIR value built without `Comment` nodes
and whose every `Ref` names a plain identifier (alphanumeric, `-`, `_`)
that the primitive decoder does not accept — a `Ref` whose symbol text
decodes as a primitive (an exact tag name such as `plus`, or any text the
s-expression re-parse normalizes to one, such as a padded `" plus"` or a
`"(get . 0)"` form) comes back as that primitive, not the reference —
decoding the encoding returns exactly the original value. All primitives
round-trip, `Get`/`Set` through their serde dotted form. -/
theorem lexpr_roundtrip (v : MirExpr) (h : Encodable v = true) :
    lexpr_to_mir (mir_to_lexpr v) = .ok v := by
  induction v with
  | Let ident value body ihv ihb =>
    simp only [Encodable, Bool.and_eq_true] at h
    obtain ⟨hv, hb⟩ := h
    simp [mir_to_lexpr, LValue.list, lexpr_to_mir, cons_to_mir, properTail,
      parse_kw, ihv hv, ihb hb, MirExpr.let_, ok_bind]
  | Lambda arg body ih =>
    simp only [Encodable] at h
    simp [mir_to_lexpr, LValue.list, lexpr_to_mir, cons_to_mir, properTail,
      parse_kw, ih h, MirExpr.lambda, ok_bind]
  | If c t e ihc iht ihe =>
    simp only [Encodable, Bool.and_eq_true] at h
    obtain ⟨⟨hc, ht⟩, he⟩ := h
    simp [mir_to_lexpr, LValue.list, lexpr_to_mir, cons_to_mir, properTail,
      parse_kw, ihc hc, iht ht, ihe he, MirExpr.if_, ok_bind]
  | Apply f a ihf iha =>
    simp only [Encodable, Bool.and_eq_true] at h
    obtain ⟨hf, ha⟩ := h
    have e1 : mir_to_lexpr (MirExpr.Apply f a)
        = .Cons (mir_to_lexpr f) (.Cons (mir_to_lexpr a) .Null) := by
      simp [mir_to_lexpr, LValue.list]
    have e2 : lexpr_to_mir (LValue.Cons (mir_to_lexpr f) (.Cons (mir_to_lexpr a) .Null))
        = cons_to_mir (mir_to_lexpr f) (.Cons (mir_to_lexpr a) .Null) := by
      simp [lexpr_to_mir]
    rw [e1, e2, cons_to_mir_app _ _ (mir_to_lexpr_ne_keyword f) (by simp [properTail]),
      ihf hf]
    simp [fold_apps, iha ha, MirExpr.apply, ok_bind]
  | Primitive p =>
    simp [mir_to_lexpr, lexpr_to_mir, prim_from_str_primName p]
  | Literal l =>
    cases l <;> simp [mir_to_lexpr, lexpr_to_mir, MirExpr.literal]
  | Ref name =>
    simp only [Encodable, Bool.and_eq_true, Option.isNone_iff_eq_none] at h
    simp [mir_to_lexpr, lexpr_to_mir, h.2]
  | Comment s inner ih =>
    simp [Encodable] at h

/-- Witness for the amended C3 round-trip at the spec's concrete case,
the curried application of `plus` to `1` and `2`. -/
theorem lexpr_roundtrip_witness :
    Encodable (.Apply (.Apply (.Primitive .Plus) (.Literal (.Int 1)))
        (.Literal (.Int 2))) = true
      ∧ lexpr_to_mir (mir_to_lexpr (.Apply (.Apply (.Primitive .Plus)
          (.Literal (.Int 1))) (.Literal (.Int 2))))
        = .ok (.Apply (.Apply (.Primitive .Plus) (.Literal (.Int 1)))
          (.Literal (.Int 2))) :=
  ⟨rfl, lexpr_roundtrip _ rfl⟩

/-- Claim C4. The claim states `Comment(s, inner)` evaluates exactly as
`inner`. In the code, `eval`'s catch-all arm hits `unimplemented!` on any
`Comment`, so evaluating a `Comment` aborts for every `s` and `inner`,
while e.g. the bare inner literal `1` evaluates to `Ok(Int 1)`. -/
theorem comment_evaluation_panics :
    (∀ (s : String) (inner : MirExpr),
      Evaluates (.Comment s inner) (.panic (.undesugaredExpr (.Comment s inner))))
      ∧ Evaluates (.Literal (.Int 1)) (.ok (.Int 1)) :=
  ⟨fun _ _ => ⟨1, rfl⟩, ⟨2, rfl⟩⟩

/-- Claim C5. The claim (and the code's own doc comment) states the
switch helper selects the `i`-th candidate in the given order when the
discriminant is `i`, falling through to the last. The code pops
candidates from the *end* of the vector while counting positions up from
0, so index 0 guards the last candidate and the fall-through is the first:
for candidates `[10, 20]` and discriminant `0`, the built expression
evaluates to `20`, not `10`. -/
theorem switch_pairs_indices_reversed :
    switch (.Literal (.Int 0)) [.Literal (.Int 10), .Literal (.Int 20)]
        = some (.Let "discriminant" (.Literal (.Int 0))
            (.If (eq_expr 0 (.Ref "discriminant"))
              (.Literal (.Int 20)) (.Literal (.Int 10))))
      ∧ Evaluates
          (MirExpr.desugar (.Let "discriminant" (.Literal (.Int 0))
            (.If (eq_expr 0 (.Ref "discriminant"))
              (.Literal (.Int 20)) (.Literal (.Int 10)))))
          (.ok (.Int 20)) := by
  refine ⟨?_, ⟨30, rfl⟩⟩
  simp [switch, switch_helper, DISCRIMINANT, MirExpr.let_, MirExpr.if_]

/-- Claim C6. The claim states fully applying `Div` (or `Mod`) always
returns an ordinary result, including for divisor `0`. The code divides
with Rust `/` and `%`, which abort the process on a zero divisor:
`((div 1) 0)` and `((mod 1) 0)` end in a panic, not an `Ok`/`Err` value. -/
theorem div_mod_by_zero_abort :
    Evaluates (.Apply (.Apply (.Primitive .Div) (.Literal (.Int 1)))
        (.Literal (.Int 0))) (.panic .divideByZero)
      ∧ Evaluates (.Apply (.Apply (.Primitive .Mod) (.Literal (.Int 1)))
        (.Literal (.Int 0))) (.panic .remainderByZero) :=
  ⟨⟨20, rfl⟩, ⟨20, rfl⟩⟩

/-- Claim C7. The claim states `Xor` returns `Bool(a != b)`. The code's
firing arm computes `get_bool(args[0]) == get_bool(args[1])` — boolean
equality (XNOR) — so `((xor true) true)` evaluates to `Bool(true)` where
the claim requires `Bool(false)`. -/
theorem xor_computes_equality :
    (∀ a b : Bool,
      apply_primitive (.mk .Xor [.Bool a]) (.Bool b) = .ok (.Bool (a == b)))
      ∧ Evaluates (.Apply (.Apply (.Primitive .Xor) (.Literal (.Bool true)))
          (.Literal (.Bool true))) (.ok (.Bool true)) :=
  ⟨fun _ _ => rfl, ⟨20, rfl⟩⟩

/-- Claim C8. First argument `Int 1` to `Div` yields the distinct
partially-applied value holding the tag and that argument; an ill-typed
second argument yields the descriptive type error (the partial value,
being immutable, is untouched and reusable — supplying `Int 2` afterwards
fires normally); but the correctly-typed second argument `Int 0` does not
yield a final result: the firing division aborts, contradicting the
claim's universal "supplying a correctly-typed second argument yields the
final result". -/
theorem curried_div_protocol_and_zero_divisor :
    apply_primitive (.mk .Div []) (.Int 1)
        = .ok (.CurriedPrimitive (.mk .Div [.Int 1]))
      ∧ apply_primitive (.mk .Div [.Int 1]) (.Bool true)
        = .error (.err (.primTypeError .Div .Int (.Bool true)))
      ∧ apply_primitive (.mk .Div [.Int 1]) (.Int 2) = .ok (.Int 0)
      ∧ apply_primitive (.mk .Div [.Int 1]) (.Int 0)
        = .error (.panic .divideByZero) :=
  ⟨rfl, rfl, rfl, rfl⟩

/-- Claim C9. A second `set_jump` on a block whose jump is already set,
like a second `set_return_block` in one session, hits the
`debug_assert!` (modelled as a fatal panic) instead of silently replacing
the stored value. -/
theorem set_jump_set_return_once :
    (∀ (cfg : Cfg) (j₁ j₂ : Jump) (cfg' : Cfg),
      Cfg.set_jump cfg j₁ = .ok cfg' →
        Cfg.set_jump cfg' j₂ = .error (.panic .changingBlockJump))
      ∧ (∀ (cfg : Cfg) (id id' : Nat) (cfg' : Cfg),
        Cfg.set_return_block cfg id = .ok cfg' →
          Cfg.set_return_block cfg' id' = .error (.panic .changingReturnBlock)) := by
  constructor
  · intro cfg j₁ j₂ cfg' h
    unfold Cfg.set_jump at h ⊢
    cases hidx : cfg.blocks[cfg.current_block]? with
    | none => simp [hidx] at h
    | some b =>
      simp only [hidx] at h
      cases hb : b.jump with
      | some j0 => simp [hb] at h
      | none =>
        simp only [hb, Option.isSome_none, Bool.false_eq_true, if_false,
          Except.ok.injEq] at h
        subst h
        simp [List.getElem?_set_self', hidx]
  · intro cfg id id' cfg' h
    unfold Cfg.set_return_block at h ⊢
    cases hr : cfg.return_block_id with
    | some r0 => simp [hr] at h
    | none =>
      simp only [hr, Option.isSome_none, Bool.false_eq_true, if_false,
        Except.ok.injEq] at h
      subst h
      simp

/-- Witness for C9 on the default builder: the first `set_jump` succeeds
and stores the jump; the second one panics. -/
theorem set_jump_once_witness :
    Cfg.set_jump Cfg.default (.Jmp 1)
        = .ok ⟨[⟨none, some (.Jmp 1)⟩], none, 0⟩
      ∧ Cfg.set_jump (⟨[⟨none, some (.Jmp 1)⟩], none, 0⟩ : Cfg) (.Jmp 0)
        = .error (.panic .changingBlockJump) :=
  ⟨rfl, set_jump_set_return_once.1 Cfg.default (.Jmp 1) (.Jmp 0) _ rfl⟩

/-- Claim C10. Each comparison primitive (`Eq`, `Lt`, `Le`, `Gt`, `Ge`)
expects `Int` at both argument positions: a non-integer value at either
position yields the descriptive type error naming the primitive, the
expected class and the offending value; and `Eq` fires as integer
equality. -/
theorem comparison_primitives_int_only :
    (∀ p : Primitive, (p = .Eq ∨ p = .Lt ∨ p = .Le ∨ p = .Gt ∨ p = .Ge) →
      ∀ v : Obj, check_type .Int v = false →
        apply_primitive (.mk p []) v = .error (.err (.primTypeError p .Int v))
          ∧ ∀ i : Int, apply_primitive (.mk p [.Int i]) v
              = .error (.err (.primTypeError p .Int v)))
      ∧ (∀ a b : Int,
        apply_primitive (.mk .Eq [.Int a]) (.Int b) = .ok (.Bool (a == b))) := by
  constructor
  · intro p hp v hv
    rcases hp with rfl | rfl | rfl | rfl | rfl <;>
      exact ⟨by simp [apply_primitive, expected_args, CurriedPrimitive.primitive,
          CurriedPrimitive.args, hv],
        fun i => by simp [apply_primitive, expected_args, CurriedPrimitive.primitive,
          CurriedPrimitive.args, hv]⟩
  · intro a b
    rfl

/-- Witness for C10: `Lt` rejects a boolean in the first position. -/
theorem comparison_primitives_witness :
    check_type ObjType.Int (Obj.Bool true) = false
      ∧ apply_primitive (.mk .Lt []) (.Bool true)
        = .error (.err (.primTypeError .Lt .Int (.Bool true))) :=
  ⟨rfl, (comparison_primitives_int_only.1 .Lt (Or.inr (Or.inl rfl))
    (.Bool true) rfl).1⟩

end Brine
